import Mathlib

/-!
Verification of the bounded lock-free MPMC ring buffer from
`atomic_event_ring_buffer.c` (included into `main.c`).

The C source stores two `atomic_uint_least64_t` cursors `head` (next slot to
dequeue) and `tail` (next slot to enqueue) together with a fixed array
`Event buffer[RING_SIZE]`.  We give a sequential (contention-free) shallow
embedding: each operation is a pure function on the buffer state; a 64-bit
value is a `Nat` and every store that the C performs with `uint64_t`
arithmetic is taken modulo `2 ^ 64`.  The capacity `RING_SIZE` is a
compile-time constant (`#define RING_SIZE 1024`); the embedding takes it as
an explicit parameter `N` so that concrete scenarios at other capacities can
be stated, and `RING_SIZE` itself is defined to be `1024` as in the source.
-/

/-- Modulus of `uint64_t` arithmetic. -/
def U64 : Nat := 2 ^ 64

/-- `RING_SIZE` from the source: `#define RING_SIZE 1024`. -/
def RING_SIZE : Nat := 1024

/-- The `Event` record of the source: `uint32_t pid; uint32_t vpn;`.
The queue only copies events, it performs no arithmetic on the fields, so
the fields are plain naturals. -/
structure Event where
  pid : Nat
  vpn : Nat
deriving DecidableEq, Repr

instance : Inhabited Event := ⟨⟨0, 0⟩⟩

/-- The `AtomicEventRingBuffer` struct: `head` (next dequeue position),
`tail` (next enqueue position), and the slot array, modelled as a list
(`buffer.getD i default` models the in-bounds array read `buffer[i]`). -/
structure AtomicEventRingBuffer where
  head : Nat
  tail : Nat
  buffer : List Event
deriving DecidableEq, Repr

/-- `ring_buffer_init`: stores 0 into both cursors (relaxed); the slot array
is not initialized. -/
def ring_buffer_init (rb : AtomicEventRingBuffer) : AtomicEventRingBuffer :=
  { rb with head := 0, tail := 0 }

/-- `enqueue_event`, sequential semantics (the weak CAS on `tail` succeeds on
the first iteration because no other thread intervenes between the relaxed
load of `tail` and the CAS).  Returns the C result (`0` success, `-1` full)
together with the state after the call.  Mirrors the source:
`next_tail = (current_tail + 1) % RING_SIZE`; full iff
`next_tail == current_head`; on success the CAS advances `tail` to
`next_tail` and then the payload is stored at `buffer[current_tail % RING_SIZE]`. -/
def enqueue_event (N : Nat) (rb : AtomicEventRingBuffer) (event : Event) :
    Int × AtomicEventRingBuffer :=
  let current_tail := rb.tail
  let current_head := rb.head
  let next_tail := ((current_tail + 1) % U64) % N
  if next_tail = current_head then
    (-1, rb)
  else
    (0, { rb with
            tail := next_tail,
            buffer := rb.buffer.set (current_tail % N) event })

/-- `dequeue_event`, sequential semantics (the weak CAS on `head` succeeds on
the first iteration).  The `event` argument is the prior value of the
caller's output variable `*event`; the returned triple is the C result
(`0` success, `-1` empty), the state after the call, and the final value of
`*event`.  Mirrors the source: empty iff `current_head == current_tail`;
otherwise `*event = buffer[current_head % RING_SIZE]` and the CAS advances
`head` to `(current_head + 1) % RING_SIZE`. -/
def dequeue_event (N : Nat) (rb : AtomicEventRingBuffer) (event : Event) :
    Int × AtomicEventRingBuffer × Event :=
  let current_head := rb.head
  let current_tail := rb.tail
  if current_head = current_tail then
    (-1, rb, event)
  else
    (0, { rb with head := ((current_head + 1) % U64) % N },
      rb.buffer.getD (current_head % N) default)

/-- States reachable by any sequence of `ring_buffer_init` /
`enqueue_event` / `dequeue_event` calls (capacity `N`).  `init` may start
from an arbitrary struct, matching the unspecified slot contents at
construction. -/
inductive Reachable (N : Nat) : AtomicEventRingBuffer → Prop where
  | init (rb : AtomicEventRingBuffer) : Reachable N (ring_buffer_init rb)
  | enq (s : AtomicEventRingBuffer) (e : Event) (h : Reachable N s) :
      Reachable N (enqueue_event N s e).2
  | deq (s : AtomicEventRingBuffer) (e : Event) (h : Reachable N s) :
      Reachable N (dequeue_event N s e).2.1

/-- Occupied count of the wrapped-cursor representation: the number of slots
holding published-but-unconsumed events.  (The spec writes the occupied
count as `writeCursor - readCursor`, which agrees with this quantity only
while the cursors have not wrapped past `RING_SIZE`.) -/
def occupancy (N : Nat) (s : AtomicEventRingBuffer) : Nat :=
  (s.tail + N - s.head) % N

-- Basic projection lemmas for the two operations.

theorem enqueue_event_fst (N : Nat) (rb : AtomicEventRingBuffer) (e : Event) :
    (enqueue_event N rb e).1 =
      if ((rb.tail + 1) % U64) % N = rb.head then -1 else 0 := by
  simp only [enqueue_event]
  split <;> rfl

theorem enqueue_event_success (N : Nat) (rb : AtomicEventRingBuffer) (e : Event)
    (h : ((rb.tail + 1) % U64) % N ≠ rb.head) :
    enqueue_event N rb e =
      (0, { rb with
              tail := ((rb.tail + 1) % U64) % N,
              buffer := rb.buffer.set (rb.tail % N) e }) := by
  simp only [enqueue_event, if_neg h]

theorem enqueue_event_full (N : Nat) (rb : AtomicEventRingBuffer) (e : Event)
    (h : ((rb.tail + 1) % U64) % N = rb.head) :
    enqueue_event N rb e = (-1, rb) := by
  simp only [enqueue_event, if_pos h]

theorem dequeue_event_success (N : Nat) (rb : AtomicEventRingBuffer) (e : Event)
    (h : rb.head ≠ rb.tail) :
    dequeue_event N rb e =
      (0, { rb with head := ((rb.head + 1) % U64) % N },
        rb.buffer.getD (rb.head % N) default) := by
  simp only [dequeue_event, if_neg h]

theorem dequeue_event_empty (N : Nat) (rb : AtomicEventRingBuffer) (e : Event)
    (h : rb.head = rb.tail) :
    dequeue_event N rb e = (-1, rb, e) := by
  simp only [dequeue_event, if_pos h]

/-- Invariant: in every reachable state both cursors are below the capacity. -/
theorem reachable_cursors_lt (N : Nat) (s : AtomicEventRingBuffer)
    (h : Reachable N s) (hN : 0 < N) : s.head < N ∧ s.tail < N := by
  induction h with
  | init rb => exact ⟨hN, hN⟩
  | enq s e _ ih =>
      by_cases hc : ((s.tail + 1) % U64) % N = s.head
      · rw [enqueue_event_full N s e hc]
        exact ih
      · rw [enqueue_event_success N s e hc]
        exact ⟨ih.1, Nat.mod_lt _ hN⟩
  | deq s e _ ih =>
      by_cases hc : s.head = s.tail
      · rw [dequeue_event_empty N s e hc]
        exact ih
      · rw [dequeue_event_success N s e hc]
        exact ⟨Nat.mod_lt _ hN, ih.2⟩

/-- `RING_SIZE` fits in a `uint64_t`. -/
theorem ring_size_lt_u64 : RING_SIZE < U64 := by decide

/-- Iterate `enqueue_event` (capacity `RING_SIZE`) `k` times with the same
event, keeping only the state. -/
def enqN (e : Event) : Nat → AtomicEventRingBuffer → AtomicEventRingBuffer
  | 0, s => s
  | k + 1, s => enqN e k (enqueue_event RING_SIZE s e).2

/-- While the cursors stay below `RING_SIZE`, `k` enqueues starting from a
state with `head = 0` advance `tail` by `k` and leave `head` at 0. -/
theorem enqN_head_tail (e : Event) :
    ∀ (k : Nat) (s : AtomicEventRingBuffer), s.head = 0 →
      s.tail + k < RING_SIZE →
      (enqN e k s).head = 0 ∧ (enqN e k s).tail = s.tail + k := by
  intro k
  induction k with
  | zero =>
      intro s h1 _
      simp only [enqN]
      exact ⟨h1, rfl⟩
  | succ k ih =>
      intro s h1 h2
      have ht : s.tail + 1 < RING_SIZE := by omega
      have hm : ((s.tail + 1) % U64) % RING_SIZE = s.tail + 1 := by
        rw [Nat.mod_eq_of_lt (lt_trans ht ring_size_lt_u64), Nat.mod_eq_of_lt ht]
      have hne : ((s.tail + 1) % U64) % RING_SIZE ≠ s.head := by
        rw [hm, h1]; omega
      simp only [enqN]
      rw [enqueue_event_success RING_SIZE s e hne]
      have hstep := ih
        { s with tail := ((s.tail + 1) % U64) % RING_SIZE,
                 buffer := s.buffer.set (s.tail % RING_SIZE) e }
        h1 (by simp only [hm]; omega)
      refine ⟨hstep.1, ?_⟩
      rw [hstep.2]
      simp only [hm]
      omega

/-- `enqN` only takes reachable states to reachable states. -/
theorem reachable_enqN (e : Event) :
    ∀ (k : Nat) (s : AtomicEventRingBuffer), Reachable RING_SIZE s →
      Reachable RING_SIZE (enqN e k s) := by
  intro k
  induction k with
  | zero => intro s h; simpa only [enqN] using h
  | succ k ih =>
      intro s h
      simp only [enqN]
      exact ih _ (Reachable.enq s e h)

-- A concrete run at the source capacity `RING_SIZE = 1024` that wraps the
-- write cursor: 1023 enqueues fill the buffer, one dequeue frees a slot,
-- and the next enqueue sends `tail` from 1023 back to 0 while `head = 1`.

/-- Concrete event used by the wrap run. -/
def evW : Event := ⟨1, 1⟩

/-- Arbitrary pre-construction struct. -/
def rb0 : AtomicEventRingBuffer := ⟨0, 0, []⟩

/-- Freshly initialized buffer. -/
def s0 : AtomicEventRingBuffer := ring_buffer_init rb0

/-- State after 1023 successful enqueues: `head = 0`, `tail = 1023`. -/
def s1023 : AtomicEventRingBuffer := enqN evW 1023 s0

/-- State after one further dequeue: `head = 1`, `tail = 1023`. -/
def sPreWrap : AtomicEventRingBuffer := (dequeue_event RING_SIZE s1023 default).2.1

/-- State after one further (successful) enqueue: the write cursor wraps to
0 while `head = 1`. -/
def sWrapped : AtomicEventRingBuffer := (enqueue_event RING_SIZE sPreWrap evW).2

theorem s1023_spec : s1023.head = 0 ∧ s1023.tail = 1023 := by
  have h := enqN_head_tail evW 1023 s0 rfl (by decide)
  simpa only [s1023] using h

theorem sPreWrap_spec : sPreWrap.head = 1 ∧ sPreWrap.tail = 1023 := by
  obtain ⟨h1, h2⟩ := s1023_spec
  have hne : s1023.head ≠ s1023.tail := by rw [h1, h2]; omega
  simp only [sPreWrap, dequeue_event_success RING_SIZE s1023 default hne]
  rw [h1, h2]
  exact ⟨by decide, rfl⟩

theorem sWrapped_spec : sWrapped.head = 1 ∧ sWrapped.tail = 0 := by
  obtain ⟨h1, h2⟩ := sPreWrap_spec
  have hne : ((sPreWrap.tail + 1) % U64) % RING_SIZE ≠ sPreWrap.head := by
    rw [h1, h2]; decide
  simp only [sWrapped, enqueue_event_success RING_SIZE sPreWrap evW hne]
  rw [h1, h2]
  exact ⟨rfl, by decide⟩

theorem reachable_sWrapped : Reachable RING_SIZE sWrapped :=
  Reachable.enq sPreWrap evW
    (Reachable.deq s1023 default (reachable_enqN evW 1023 s0 (Reachable.init rb0)))

theorem reachable_sPreWrap : Reachable RING_SIZE sPreWrap :=
  Reachable.deq s1023 default (reachable_enqN evW 1023 s0 (Reachable.init rb0))

theorem dequeue_event_fst (N : Nat) (rb : AtomicEventRingBuffer) (e : Event) :
    (dequeue_event N rb e).1 = if rb.head = rb.tail then -1 else 0 := by
  simp only [dequeue_event]
  split <;> rfl

/-- Closed form of `occupancy` when both cursors are below the capacity. -/
theorem occupancy_eq (N : Nat) (s : AtomicEventRingBuffer)
    (hh : s.head < N) (ht : s.tail < N) :
    occupancy N s =
      if s.head ≤ s.tail then s.tail - s.head else s.tail + N - s.head := by
  unfold occupancy
  by_cases h : s.head ≤ s.tail
  · rw [if_pos h]
    have e1 : s.tail + N - s.head = (s.tail - s.head) + N := by omega
    rw [e1, Nat.add_mod_right, Nat.mod_eq_of_lt (by omega)]
  · rw [if_neg h]
    exact Nat.mod_eq_of_lt (by omega)

/-- C1: in every reachable state, `enqueue_event` reports full exactly when
the occupied count is `Capacity - 1`, and `dequeue_event` reports empty
exactly when the occupied count is 0. -/
theorem C1_full_empty_iff (N : Nat) (s : AtomicEventRingBuffer) (e e' : Event)
    (h : Reachable N s) (hN : 1 < N) (hU : N < U64) :
    ((enqueue_event N s e).1 = -1 ↔ occupancy N s = N - 1) ∧
    ((dequeue_event N s e').1 = -1 ↔ occupancy N s = 0) := by
  obtain ⟨hh, ht⟩ := reachable_cursors_lt N s h (by omega)
  have hocc := occupancy_eq N s hh ht
  have hm1 : (s.tail + 1) % U64 = s.tail + 1 := Nat.mod_eq_of_lt (by omega)
  constructor
  · rw [enqueue_event_fst]
    by_cases hc : ((s.tail + 1) % U64) % N = s.head
    · rw [if_pos hc]
      refine iff_of_true rfl ?_
      rw [hm1] at hc
      by_cases h2 : s.tail + 1 = N
      · rw [h2, Nat.mod_self] at hc
        rw [hocc, if_pos (by omega)]
        omega
      · rw [Nat.mod_eq_of_lt (by omega)] at hc
        rw [hocc, if_neg (by omega)]
        omega
    · rw [if_neg hc]
      refine iff_of_false (by decide) ?_
      rw [hm1] at hc
      intro hOcc
      apply hc
      rw [hocc] at hOcc
      by_cases h3 : s.head ≤ s.tail
      · rw [if_pos h3] at hOcc
        have h4 : s.tail + 1 = N := by omega
        rw [h4, Nat.mod_self]
        omega
      · rw [if_neg h3] at hOcc
        rw [Nat.mod_eq_of_lt (by omega)]
        omega
  · rw [dequeue_event_fst]
    by_cases hc : s.head = s.tail
    · rw [if_pos hc]
      refine iff_of_true rfl ?_
      rw [hocc, if_pos (by omega)]
      omega
    · rw [if_neg hc]
      refine iff_of_false (by decide) ?_
      rw [hocc]
      by_cases h3 : s.head ≤ s.tail
      · rw [if_pos h3]; omega
      · rw [if_neg h3]; omega

theorem C1_full_empty_iff_witness :
    (1 : Nat) < RING_SIZE ∧ RING_SIZE < U64 ∧
    (((enqueue_event RING_SIZE s0 evW).1 = -1 ↔
        occupancy RING_SIZE s0 = RING_SIZE - 1) ∧
     ((dequeue_event RING_SIZE s0 evW).1 = -1 ↔
        occupancy RING_SIZE s0 = 0)) :=
  ⟨by decide, by decide,
    C1_full_empty_iff RING_SIZE s0 evW evW (Reachable.init rb0)
      (by decide) (by decide)⟩

/-- C2 fails on the code: in the reachable state `sWrapped`
(`head = 1`, `tail = 0`, capacity 1024) the call returns full although the
spec's test `nextWrite - readCursor > Capacity` (in `uint64_t` arithmetic)
is false there. -/
theorem C2_counterexample :
    Reachable RING_SIZE sWrapped ∧
    (enqueue_event RING_SIZE sWrapped evW).1 = -1 ∧
    ¬ (((sWrapped.tail + 1) % U64 + U64 - sWrapped.head) % U64 > RING_SIZE) := by
  obtain ⟨h1, h2⟩ := sWrapped_spec
  refine ⟨reachable_sWrapped, ?_, ?_⟩
  · rw [enqueue_event_fst, h1, h2]
    decide
  · rw [h1, h2]
    decide

/-- C2 (amended): `enqueue_event` computes
`next_tail = (writeCursor + 1) mod RING_SIZE` and returns `Full` exactly
when `next_tail` equals `readCursor`; otherwise it does not return `Full`. -/
theorem C2_full_check (N : Nat) (s : AtomicEventRingBuffer) (e : Event) :
    (enqueue_event N s e).1 = -1 ↔ ((s.tail + 1) % U64) % N = s.head := by
  rw [enqueue_event_fst]
  by_cases h : ((s.tail + 1) % U64) % N = s.head
  · rw [if_pos h]
    exact iff_of_true rfl h
  · rw [if_neg h]
    exact iff_of_false (by decide) h

/-- C3 fails on the code: from the reachable state `sPreWrap`
(`head = 1`, `tail = 1023`) a successful enqueue moves the write cursor from
1023 to 0 (it wraps instead of increasing by 1), and the resulting reachable
state `sWrapped` has `readCursor > writeCursor`. -/
theorem C3_counterexample :
    Reachable RING_SIZE sPreWrap ∧
    (enqueue_event RING_SIZE sPreWrap evW).1 = 0 ∧
    sPreWrap.tail = 1023 ∧
    (enqueue_event RING_SIZE sPreWrap evW).2.tail = 0 ∧
    Reachable RING_SIZE sWrapped ∧
    sWrapped.tail < sWrapped.head := by
  obtain ⟨h1, h2⟩ := sPreWrap_spec
  obtain ⟨g1, g2⟩ := sWrapped_spec
  refine ⟨reachable_sPreWrap, ?_, h2, ?_, reachable_sWrapped, ?_⟩
  · rw [enqueue_event_fst, h1, h2]
    decide
  · have hne : ((sPreWrap.tail + 1) % U64) % RING_SIZE ≠ sPreWrap.head := by
      rw [h1, h2]; decide
    rw [enqueue_event_success RING_SIZE sPreWrap evW hne, h2]
    decide
  · rw [g1, g2]
    decide

/-- C3 (amended): the cursors advance modulo `RING_SIZE`: a successful
enqueue stores `(writeCursor + 1) mod RING_SIZE` into the write cursor and a
successful dequeue stores `(readCursor + 1) mod RING_SIZE` into the read
cursor (so the cursors wrap rather than growing without bound), and in
every reachable state both cursors are below the capacity. -/
theorem C3_cursors_wrap_mod (N : Nat) (s : AtomicEventRingBuffer)
    (e e' : Event) (h : Reachable N s) (hN : 0 < N) :
    s.head < N ∧ s.tail < N ∧
    ((enqueue_event N s e).1 = 0 →
      (enqueue_event N s e).2.tail = ((s.tail + 1) % U64) % N ∧
      (enqueue_event N s e).2.head = s.head) ∧
    ((dequeue_event N s e').1 = 0 →
      (dequeue_event N s e').2.1.head = ((s.head + 1) % U64) % N ∧
      (dequeue_event N s e').2.1.tail = s.tail) := by
  obtain ⟨hh, ht⟩ := reachable_cursors_lt N s h hN
  refine ⟨hh, ht, ?_, ?_⟩
  · intro hs
    by_cases hc : ((s.tail + 1) % U64) % N = s.head
    · rw [enqueue_event_fst, if_pos hc] at hs
      exact absurd hs (by decide)
    · rw [enqueue_event_success N s e hc]
      exact ⟨rfl, rfl⟩
  · intro hs
    by_cases hc : s.head = s.tail
    · rw [dequeue_event_fst, if_pos hc] at hs
      exact absurd hs (by decide)
    · rw [dequeue_event_success N s e' hc]
      exact ⟨rfl, rfl⟩

theorem C3_cursors_wrap_mod_witness :
    (0 : Nat) < RING_SIZE ∧
    (s0.head < RING_SIZE ∧ s0.tail < RING_SIZE ∧
      ((enqueue_event RING_SIZE s0 evW).1 = 0 →
        (enqueue_event RING_SIZE s0 evW).2.tail =
          ((s0.tail + 1) % U64) % RING_SIZE ∧
        (enqueue_event RING_SIZE s0 evW).2.head = s0.head) ∧
      ((dequeue_event RING_SIZE s0 evW).1 = 0 →
        (dequeue_event RING_SIZE s0 evW).2.1.head =
          ((s0.head + 1) % U64) % RING_SIZE ∧
        (dequeue_event RING_SIZE s0 evW).2.1.tail = s0.tail)) :=
  ⟨by decide,
    C3_cursors_wrap_mod RING_SIZE s0 evW evW (Reachable.init rb0) (by decide)⟩

/-- C4 fails on the code: in the reachable state `sWrapped` the spec's
occupied count `writeCursor - readCursor` (in `uint64_t` arithmetic) equals
`2^64 - 1`, far above `Capacity - 1`. -/
theorem C4_counterexample :
    Reachable RING_SIZE sWrapped ∧
    (sWrapped.tail + U64 - sWrapped.head) % U64 > RING_SIZE - 1 := by
  obtain ⟨h1, h2⟩ := sWrapped_spec
  refine ⟨reachable_sWrapped, ?_⟩
  rw [h1, h2]
  decide

/-- C4 (amended): in every reachable state both cursors are below
`RING_SIZE` and the occupied count of the wrapped representation,
`(writeCursor + RING_SIZE - readCursor) mod RING_SIZE`, never exceeds
`RING_SIZE - 1`. -/
theorem C4_occupancy_bound (N : Nat) (s : AtomicEventRingBuffer)
    (h : Reachable N s) (hN : 0 < N) :
    s.head < N ∧ s.tail < N ∧ occupancy N s ≤ N - 1 := by
  obtain ⟨hh, ht⟩ := reachable_cursors_lt N s h hN
  refine ⟨hh, ht, ?_⟩
  have hlt := Nat.mod_lt (s.tail + N - s.head) hN
  unfold occupancy
  omega

theorem C4_occupancy_bound_witness :
    (0 : Nat) < RING_SIZE ∧
    (s0.head < RING_SIZE ∧ s0.tail < RING_SIZE ∧
      occupancy RING_SIZE s0 ≤ RING_SIZE - 1) :=
  ⟨by decide,
    C4_occupancy_bound RING_SIZE s0 (Reachable.init rb0) (by decide)⟩

-- The concrete capacity-4 scenario of the spec (events A..E).

/-- Event A of the scenario. -/
def evA : Event := ⟨10, 1⟩

/-- Event B of the scenario. -/
def evB : Event := ⟨10, 2⟩

/-- Event C of the scenario. -/
def evC : Event := ⟨10, 3⟩

/-- Event D of the scenario. -/
def evD : Event := ⟨10, 4⟩

/-- Event E of the scenario. -/
def evE : Event := ⟨10, 5⟩

/-- Freshly initialized capacity-4 buffer (arbitrary prior contents). -/
def init4 : AtomicEventRingBuffer := ring_buffer_init ⟨3, 5, [⟨9, 9⟩, ⟨9, 9⟩, ⟨9, 9⟩, ⟨9, 9⟩]⟩

/-- State after enqueueing A. -/
def s4a : AtomicEventRingBuffer := (enqueue_event 4 init4 evA).2

/-- State after enqueueing A, B. -/
def s4b : AtomicEventRingBuffer := (enqueue_event 4 s4a evB).2

/-- State after enqueueing A, B, C. -/
def s4c : AtomicEventRingBuffer := (enqueue_event 4 s4b evC).2

/-- State after the first dequeue (which yields A). -/
def s4d1 : AtomicEventRingBuffer := (dequeue_event 4 s4c default).2.1

/-- State after the second dequeue (which yields B). -/
def s4d2 : AtomicEventRingBuffer := (dequeue_event 4 s4d1 default).2.1

/-- State after the third dequeue (which yields C). -/
def s4d3 : AtomicEventRingBuffer := (dequeue_event 4 s4d2 default).2.1

/-- C5 fails on the code: at capacity 4 the fourth enqueue does not
succeed — the full check `(tail + 1) % RING_SIZE == head` fires after only
three events (one slot is sacrificed), so D is rejected, not E. -/
theorem C5_counterexample :
    (enqueue_event 4 init4 evA).1 = 0 ∧
    (enqueue_event 4 s4a evB).1 = 0 ∧
    (enqueue_event 4 s4b evC).1 = 0 ∧
    ¬ ((enqueue_event 4 s4c evD).1 = 0) := by decide

/-- C5 (amended): at capacity 4, enqueues of A, B, C succeed and the
attempts for D and E return full (leaving the state unchanged); the
consumer then dequeues A, B, C in order, a further dequeue returns empty,
and enqueueing E afterwards succeeds. -/
theorem C5_scenario :
    (enqueue_event 4 init4 evA).1 = 0 ∧
    (enqueue_event 4 s4a evB).1 = 0 ∧
    (enqueue_event 4 s4b evC).1 = 0 ∧
    (enqueue_event 4 s4c evD).1 = -1 ∧ (enqueue_event 4 s4c evD).2 = s4c ∧
    (enqueue_event 4 s4c evE).1 = -1 ∧ (enqueue_event 4 s4c evE).2 = s4c ∧
    (dequeue_event 4 s4c default).1 = 0 ∧
    (dequeue_event 4 s4c default).2.2 = evA ∧
    (dequeue_event 4 s4d1 default).1 = 0 ∧
    (dequeue_event 4 s4d1 default).2.2 = evB ∧
    (dequeue_event 4 s4d2 default).1 = 0 ∧
    (dequeue_event 4 s4d2 default).2.2 = evC ∧
    (dequeue_event 4 s4d3 default).1 = -1 ∧
    (enqueue_event 4 s4d3 evE).1 = 0 := by decide

-- Memory-access order of the enqueue path (for the publication-ordering
-- requirement).

/-- One shared-memory access of `enqueue_event`, tagged with the memory
order the source requests. -/
inductive MemAccess where
  | loadTailRelaxed (v : Nat)
  | loadHeadAcquire (v : Nat)
  | casTailRelease (expected desired : Nat)
  | storeSlot (idx : Nat) (e : Event)
deriving DecidableEq, Repr

/-- The shared-memory accesses `enqueue_event` performs, in program order,
for a contention-free execution, read off the source: relaxed load of
`tail`, acquire load of `head`, and — on the success path — the release CAS
that advances `tail`, followed by the plain store of the payload into
`buffer[current_tail % RING_SIZE]`. -/
def enqueue_event_order (N : Nat) (rb : AtomicEventRingBuffer) (event : Event) :
    List MemAccess :=
  let current_tail := rb.tail
  let current_head := rb.head
  let next_tail := ((current_tail + 1) % U64) % N
  if next_tail = current_head then
    [.loadTailRelaxed current_tail, .loadHeadAcquire current_head]
  else
    [.loadTailRelaxed current_tail, .loadHeadAcquire current_head,
     .casTailRelease current_tail next_tail,
     .storeSlot (current_tail % N) event]

/-- C6 is violated by the code: on the success path the release CAS that
advances the shared write cursor (position 2 of the access sequence) comes
before the payload store into the claimed slot (position 3), i.e. the slot
is published to consumers before its payload is written — here shown for an
enqueue into the freshly initialized capacity-4 buffer. -/
theorem C6_publishes_before_payload_write :
    enqueue_event_order 4 init4 evA =
      [MemAccess.loadTailRelaxed 0, MemAccess.loadHeadAcquire 0,
       MemAccess.casTailRelease 0 1, MemAccess.storeSlot 0 evA] ∧
    (enqueue_event_order 4 init4 evA)[2]? =
      some (MemAccess.casTailRelease 0 1) ∧
    (enqueue_event_order 4 init4 evA)[3]? =
      some (MemAccess.storeSlot 0 evA) := by decide

/-- C7: `ring_buffer_init` stores 0 into both cursors whatever the prior
state, leaves the slot array as it was, and has no failure outcome. -/
theorem C7_init_zeroes_cursors (rb : AtomicEventRingBuffer) :
    (ring_buffer_init rb).head = 0 ∧ (ring_buffer_init rb).tail = 0 ∧
    (ring_buffer_init rb).buffer = rb.buffer :=
  ⟨rfl, rfl, rfl⟩

/-- C8: whenever the buffer is non-empty (`head ≠ tail`), `dequeue_event`
succeeds, copies the event stored in slot `head % N` into the caller's
output, and advances `head` to the following slot, leaving `tail` and the
slot array untouched. -/
theorem C8_dequeue_nonempty (N : Nat) (s : AtomicEventRingBuffer) (e : Event)
    (h : s.head ≠ s.tail) :
    (dequeue_event N s e).1 = 0 ∧
    (dequeue_event N s e).2.2 = s.buffer.getD (s.head % N) default ∧
    (dequeue_event N s e).2.1.head = ((s.head + 1) % U64) % N ∧
    (dequeue_event N s e).2.1.tail = s.tail ∧
    (dequeue_event N s e).2.1.buffer = s.buffer := by
  rw [dequeue_event_success N s e h]
  exact ⟨rfl, rfl, rfl, rfl, rfl⟩

/-- Small demonstration state for the dequeue contract: `head = 0`,
`tail = 2`, slots 0 and 1 hold A and B. -/
def sDemo : AtomicEventRingBuffer := ⟨0, 2, [evA, evB, evC, evD]⟩

theorem C8_dequeue_nonempty_witness :
    sDemo.head ≠ sDemo.tail ∧
    ((dequeue_event 4 sDemo evE).1 = 0 ∧
     (dequeue_event 4 sDemo evE).2.2 = sDemo.buffer.getD (sDemo.head % 4) default ∧
     (dequeue_event 4 sDemo evE).2.1.head = ((sDemo.head + 1) % U64) % 4 ∧
     (dequeue_event 4 sDemo evE).2.1.tail = sDemo.tail ∧
     (dequeue_event 4 sDemo evE).2.1.buffer = sDemo.buffer) :=
  ⟨by decide, C8_dequeue_nonempty 4 sDemo evE (by decide)⟩

-- One-iteration model of the do/while CAS loops, for the progress claim.

/-- One `atomic_compare_exchange` on a cell currently holding `location`:
succeeds and installs `desired` exactly when the cell holds `expected`;
otherwise it leaves the cell alone. -/
def cas (location expected desired : Nat) : Bool × Nat :=
  if location = expected then (true, desired) else (false, location)

/-- Outcome of one iteration of the enqueue do/while body. -/
inductive EnqIter where
  | ok (rb : AtomicEventRingBuffer)
  | full
  | retry
deriving DecidableEq, Repr

/-- Outcome of one iteration of the dequeue do/while body. -/
inductive DeqIter where
  | ok (rb : AtomicEventRingBuffer) (e : Event)
  | empty
  | retry
deriving DecidableEq, Repr

/-- One iteration of the enqueue loop body, with the CAS decision made
explicitly: in the sequential model the shared `tail` still holds the value
just loaded, so the comparison is against that same value. -/
def enqueue_iterate (N : Nat) (rb : AtomicEventRingBuffer) (event : Event) :
    EnqIter :=
  let current_tail := rb.tail
  let current_head := rb.head
  let next_tail := ((current_tail + 1) % U64) % N
  if next_tail = current_head then
    .full
  else
    let c := cas rb.tail current_tail next_tail
    if c.1 then
      .ok { rb with
              tail := c.2,
              buffer := rb.buffer.set (current_tail % N) event }
    else
      .retry

/-- One iteration of the dequeue loop body, with the CAS decision made
explicitly. -/
def dequeue_iterate (N : Nat) (rb : AtomicEventRingBuffer) : DeqIter :=
  let current_head := rb.head
  let current_tail := rb.tail
  if current_head = current_tail then
    .empty
  else
    let e := rb.buffer.getD (current_head % N) default
    let c := cas rb.head current_head (((current_head + 1) % U64) % N)
    if c.1 then
      .ok { rb with head := c.2 } e
    else
      .retry

theorem enqueue_iterate_eq (N : Nat) (rb : AtomicEventRingBuffer) (e : Event) :
    enqueue_iterate N rb e =
      if ((rb.tail + 1) % U64) % N = rb.head then EnqIter.full
      else EnqIter.ok { rb with
                          tail := ((rb.tail + 1) % U64) % N,
                          buffer := rb.buffer.set (rb.tail % N) e } := by
  by_cases h : ((rb.tail + 1) % U64) % N = rb.head
  · simp [enqueue_iterate, cas, h]
  · simp [enqueue_iterate, cas, h]

theorem dequeue_iterate_eq (N : Nat) (rb : AtomicEventRingBuffer) :
    dequeue_iterate N rb =
      if rb.head = rb.tail then DeqIter.empty
      else DeqIter.ok { rb with head := ((rb.head + 1) % U64) % N }
             (rb.buffer.getD (rb.head % N) default) := by
  by_cases h : rb.head = rb.tail
  · simp [dequeue_iterate, cas, h]
  · simp [dequeue_iterate, cas, h]

/-- C9: in the contention-free sequential model the CAS always succeeds, so
each do/while loop exits after its first iteration (never asking for a
retry), and every call returns: the enqueue iteration yields full or a
success state, the dequeue iteration yields empty or a success state with
the read event. -/
theorem C9_single_iteration_returns (N : Nat) (rb : AtomicEventRingBuffer)
    (e : Event) :
    (enqueue_iterate N rb e ≠ EnqIter.retry ∧
      (enqueue_iterate N rb e = EnqIter.full ∨
        ∃ rb', enqueue_iterate N rb e = EnqIter.ok rb')) ∧
    (dequeue_iterate N rb ≠ DeqIter.retry ∧
      (dequeue_iterate N rb = DeqIter.empty ∨
        ∃ rb' e', dequeue_iterate N rb = DeqIter.ok rb' e')) := by
  rw [enqueue_iterate_eq, dequeue_iterate_eq]
  constructor
  · by_cases h : ((rb.tail + 1) % U64) % N = rb.head
    · rw [if_pos h]
      exact ⟨by simp, Or.inl rfl⟩
    · rw [if_neg h]
      exact ⟨by simp, Or.inr ⟨_, rfl⟩⟩
  · by_cases h : rb.head = rb.tail
    · rw [if_pos h]
      exact ⟨by simp, Or.inl rfl⟩
    · rw [if_neg h]
      exact ⟨by simp, Or.inr ⟨_, _, rfl⟩⟩

/-- C10: a failed operation changes nothing: when `enqueue_event` reports
full the whole state (both cursors and every slot) is returned unchanged
and the caller's event is only read; when `dequeue_event` reports empty the
state is returned unchanged and the caller's output variable keeps its
prior value. -/
theorem C10_failure_preserves_state (N : Nat) (s : AtomicEventRingBuffer)
    (e e' : Event) :
    ((enqueue_event N s e).1 = -1 → (enqueue_event N s e).2 = s) ∧
    ((dequeue_event N s e').1 = -1 →
      (dequeue_event N s e').2.1 = s ∧ (dequeue_event N s e').2.2 = e') := by
  constructor
  · intro hf
    by_cases hc : ((s.tail + 1) % U64) % N = s.head
    · rw [enqueue_event_full N s e hc]
    · rw [enqueue_event_fst, if_neg hc] at hf
      exact absurd hf (by decide)
  · intro hf
    by_cases hc : s.head = s.tail
    · rw [dequeue_event_empty N s e' hc]
      exact ⟨rfl, rfl⟩
    · rw [dequeue_event_fst, if_neg hc] at hf
      exact absurd hf (by decide)

theorem C10_failure_preserves_state_witness :
    (enqueue_event 1 rb0 evW).1 = -1 ∧
    (enqueue_event 1 rb0 evW).2 = rb0 ∧
    (dequeue_event 1 rb0 evW).1 = -1 ∧
    (dequeue_event 1 rb0 evW).2.1 = rb0 ∧
    (dequeue_event 1 rb0 evW).2.2 = evW :=
  ⟨by decide,
    (C10_failure_preserves_state 1 rb0 evW evW).1 (by decide),
    by decide,
    ((C10_failure_preserves_state 1 rb0 evW evW).2 (by decide)).1,
    ((C10_failure_preserves_state 1 rb0 evW evW).2 (by decide)).2⟩
